import Mathlib

/-!
Verification of the workspace/command core of `pmr2.wfctrl`
(`src/pmr/wfctrl/core.py`), shallowly embedded in Lean 4.

Paths are modelled as Lean `String`s (sequences of characters, exactly as
CPython `str` treats them); the POSIX path helpers used by the source
(`os.path.abspath`, `normpath`, `join`, `isabs`) are translated from the
CPython `posixpath` module, with the ambient current working directory
(`os.getcwd()`) passed explicitly as a `cwd` argument.  The filesystem is
modelled as an `isdir : String → Bool` oracle.  Python exceptions are
modelled by an error type; Python `set` objects by duplicate-free lists
with membership-guarded insertion.  Side-effecting callables are modelled
as functions returning the list of primitive actions they performed.
-/

namespace Wfctrl

/-- Python exceptions raised by the embedded code: `ValueError('filename
not inside working dir')` from `BaseWorkspace.add_file` (the spec's
OutOfBoundsPathError), `AssertionError` from `assert marker is not None`
in `CmdWorkspace.__init__` (the spec's ConfigurationError), and
`TypeError` from calling a function with keyword arguments it does not
accept. -/
inductive PyErr where
  | outOfBoundsPath
  | configAssertion
  | typeError
deriving DecidableEq

/-- Lexicographic comparison of character sequences by code point:
`lexLe a b` is true iff `a ≤ b` in the order CPython uses to compare
`str` values (and hence the order `sorted` sorts by). -/
def lexLe : List Char → List Char → Bool
  | [], _ => true
  | _ :: _, [] => false
  | a :: as, b :: bs =>
    if a.toNat < b.toNat then true
    else if b.toNat < a.toNat then false
    else lexLe as bs

/-- The string order used by Python `sorted` on `str`: code-point
lexicographic. -/
def strLe (a b : String) : Prop := lexLe a.data b.data = true

instance : DecidableRel strLe := fun a b =>
  inferInstanceAs (Decidable (lexLe a.data b.data = true))

theorem charToNat_inj {a b : Char} (h : a.toNat = b.toNat) : a = b :=
  Char.eq_of_val_eq (UInt32.toNat.inj h)

theorem lexLe_total : ∀ a b : List Char, lexLe a b = true ∨ lexLe b a = true
  | [], _ => Or.inl rfl
  | _ :: _, [] => Or.inr rfl
  | a :: as, b :: bs => by
    by_cases hab : a.toNat < b.toNat
    · left; simp [lexLe, hab]
    · by_cases hba : b.toNat < a.toNat
      · right; simp [lexLe, hba]
      · rcases lexLe_total as bs with h | h
        · left; simp [lexLe, hab, hba, h]
        · right; simp [lexLe, hab, hba, h]

theorem lexLe_antisymm : ∀ {a b : List Char},
    lexLe a b = true → lexLe b a = true → a = b
  | [], [], _, _ => rfl
  | [], _ :: _, _, h => by simp [lexLe] at h
  | _ :: _, [], h, _ => by simp [lexLe] at h
  | a :: as, b :: bs, h₁, h₂ => by
    by_cases hab : a.toNat < b.toNat
    · simp [lexLe, hab, Nat.lt_asymm hab] at h₂
    · by_cases hba : b.toNat < a.toNat
      · simp [lexLe, hba, Nat.lt_asymm hba] at h₁
      · simp only [lexLe, if_neg hab, if_neg hba] at h₁ h₂
        have hc : a = b := charToNat_inj (Nat.le_antisymm
          (Nat.le_of_not_lt hba) (Nat.le_of_not_lt hab))
        rw [hc, lexLe_antisymm h₁ h₂]

theorem lexLe_trans : ∀ {a b c : List Char},
    lexLe a b = true → lexLe b c = true → lexLe a c = true
  | [], _, _, _, _ => rfl
  | _ :: _, [], _, h, _ => by simp [lexLe] at h
  | _ :: _, _ :: _, [], _, h => by simp [lexLe] at h
  | a :: as, b :: bs, c :: cs, h₁, h₂ => by
    by_cases hab : a.toNat < b.toNat
    · by_cases hbc : b.toNat < c.toNat
      · simp [lexLe, Nat.lt_trans hab hbc]
      · by_cases hcb : c.toNat < b.toNat
        · simp [lexLe, hbc, hcb] at h₂
        · have hbc' : b.toNat = c.toNat :=
            Nat.le_antisymm (Nat.le_of_not_lt hcb) (Nat.le_of_not_lt hbc)
          simp [lexLe, hbc' ▸ hab]
    · by_cases hba : b.toNat < a.toNat
      · simp [lexLe, hab, hba] at h₁
      · have hab' : a.toNat = b.toNat :=
          Nat.le_antisymm (Nat.le_of_not_lt hba) (Nat.le_of_not_lt hab)
        simp only [lexLe, if_neg hab, if_neg hba] at h₁
        by_cases hbc : b.toNat < c.toNat
        · simp [lexLe, hab' ▸ hbc]
        · by_cases hcb : c.toNat < b.toNat
          · simp [lexLe, hbc, hcb] at h₂
          · simp only [lexLe, if_neg hbc, if_neg hcb] at h₂
            simp only [lexLe, if_neg (hab' ▸ hbc), if_neg (hab' ▸ hcb)]
            exact lexLe_trans h₁ h₂

instance : IsTotal String strLe := ⟨fun a b => lexLe_total a.data b.data⟩

instance : IsTrans String strLe := ⟨fun _ _ _ => lexLe_trans⟩

instance : IsAntisymm String strLe :=
  ⟨fun a b h₁ h₂ => by
    cases a; cases b
    exact congrArg String.mk (lexLe_antisymm h₁ h₂)⟩

instance : IsRefl String strLe :=
  ⟨fun a => by
    cases a with
    | mk d =>
      show lexLe d d = true
      induction d with
      | nil => rfl
      | cons c cs ih => simp [lexLe, ih]⟩

/-- `beginsWith s pre` is Python `s.startswith(pre)` on character
sequences. -/
def beginsWith (s pre : List Char) : Bool :=
  match pre, s with
  | [], _ => true
  | _ :: _, [] => false
  | p :: ps, c :: cs => c == p && beginsWith cs ps

/-- Python `str.startswith` on the embedded strings. -/
def pyStartswith (s pre : String) : Bool := beginsWith s.data pre.data

/-- `posixpath.isabs(s)`: `s.startswith('/')`. -/
def isabs (s : String) : Bool := beginsWith s.data ['/']

/-- Python `s.split('/')`: split on every slash, keeping empty pieces
(so `''.split('/') == ['']`, `'/a'.split('/') == ['', 'a']`). -/
def splitSlash : List Char → List (List Char)
  | [] => [[]]
  | c :: cs =>
    let r := splitSlash cs
    if c = '/' then [] :: r
    else
      match r with
      | h :: t => (c :: h) :: t
      | [] => [[c]]

/-- Python `'/'.join(comps)`. -/
def joinSlash : List (List Char) → List Char
  | [] => []
  | [c] => c
  | c :: cs => c ++ '/' :: joinSlash cs

/-- CPython `posixpath.normpath`, translated clause by clause: empty path
becomes `'.'`; count the initial slashes (two are preserved, one or three
or more collapse to one); drop `''` and `'.'` components; a `'..'`
component pops the previous component unless there is nothing to pop (at
the root extra `'..'` are dropped; for relative paths they accumulate). -/
def normChars (l : List Char) : List Char :=
  if l = [] then ['.']
  else
    let slashes : Nat :=
      if beginsWith l ['/'] then
        if beginsWith l ['/', '/'] ∧ ¬ beginsWith l ['/', '/', '/'] then 2
        else 1
      else 0
    let comps := splitSlash l
    let newComps := comps.foldl (fun acc comp =>
      if comp = [] ∨ comp = ['.'] then acc
      else if comp ≠ ['.', '.'] ∨ (slashes = 0 ∧ acc = [])
          ∨ (acc ≠ [] ∧ acc.getLast? = some ['.', '.']) then acc ++ [comp]
      else if acc ≠ [] then acc.dropLast
      else acc) []
    let joined := List.replicate slashes '/' ++ joinSlash newComps
    if joined = [] then ['.'] else joined

/-- `posixpath.normpath` on the embedded strings. -/
def normpath (s : String) : String := ⟨normChars s.data⟩

/-- `posixpath.join(a, b)` (the two-argument form used by the source):
`b` if `b` is absolute, else `a + b` if `a` is empty or ends with a
slash, else `a + '/' + b`. -/
def pjoin (a b : String) : String :=
  if beginsWith b.data ['/'] then b
  else if a.data = [] ∨ a.data.getLast? = some '/' then ⟨a.data ++ b.data⟩
  else ⟨a.data ++ '/' :: b.data⟩

/-- `posixpath.abspath(s)` with the process working directory `cwd`
passed explicitly: `normpath(join(cwd, s))` for a relative `s`,
`normpath(s)` for an absolute one. -/
def abspath (cwd s : String) : String :=
  if isabs s then normpath s else normpath (pjoin cwd s)

/-- Python `len(s)` (a character count on `str`). -/
def strLen (s : String) : Nat := s.data.length

/-- Python `s[n:]` (slicing past the end yields the empty string). -/
def strDrop (s : String) (n : Nat) : String := ⟨s.data.drop n⟩

/-- The state of a `BaseWorkspace` (core.py lines 11–55): the normalized
absolute `working_dir` and the `files` set.  The Python `set` is modelled
as a duplicate-free list; `setAdd` below is `set.add`. -/
structure BaseWorkspace where
  working_dir : String
  files : List String
deriving DecidableEq

/-- Python `set.add`: a no-op when the element is already present. -/
def setAdd (xs : List String) (x : String) : List String :=
  if x ∈ xs then xs else xs ++ [x]

/-- `BaseWorkspace.__init__` (lines 19–21): store
`abspath(normpath(working_dir))` and `reset()` (an empty file set), with
`cwd` the ambient `os.getcwd()`. -/
def mkBaseWorkspace (cwd working_dir : String) : BaseWorkspace :=
  { working_dir := abspath cwd (normpath working_dir), files := [] }

/-- `BaseWorkspace.reset` (lines 23–24): `self.files = set()`. -/
def BaseWorkspace.reset (ws : BaseWorkspace) : BaseWorkspace :=
  { ws with files := [] }

/-- The absolute form `add_file` computes for its argument (lines 39–42):
the argument itself when absolute, otherwise
`abspath(normpath(join(working_dir, filename)))`. -/
def resolveAbs (cwd wd filename : String) : String :=
  if isabs filename then filename
  else abspath cwd (normpath (pjoin wd filename))

/-- The workspace-relative name `add_file` stores (line 47):
`filename[len(working_dir) + 1:]` of the resolved absolute form. -/
def relnameOf (cwd wd filename : String) : String :=
  strDrop (resolveAbs cwd wd filename) (strLen wd + 1)

/-- `BaseWorkspace.add_file` (lines 34–49).  The result pairs the
post-state with the exception raised, if any: the `ValueError` at line 45
is raised before the mutation at line 49, so on error the state is the
input state. -/
def add_file (cwd : String) (ws : BaseWorkspace) (filename : String) :
    BaseWorkspace × Option PyErr :=
  let f := resolveAbs cwd ws.working_dir filename
  if pyStartswith f ws.working_dir then
    ({ ws with files := setAdd ws.files (strDrop f (strLen ws.working_dir + 1)) },
      none)
  else (ws, some PyErr.outOfBoundsPath)

/-- `BaseWorkspace.get_tracked_subpaths` (lines 51–52):
`sorted(list(self.files))`, i.e. the tracked names in Python's
code-point lexicographic order. -/
def get_tracked_subpaths (ws : BaseWorkspace) : List String :=
  List.insertionSort strLe ws.files

/-- A sequence of `add_file` calls, stopping at the first exception (a
Python `for` loop of calls would not continue past a raise). -/
def addAll (cwd : String) (ws : BaseWorkspace) :
    List String → BaseWorkspace × Option PyErr
  | [] => (ws, none)
  | p :: rest =>
    match add_file cwd ws p with
    | (ws', none) => addAll cwd ws' rest
    | (ws', some e) => (ws', some e)

/-- Modelled from the spec's words (the claims' notion of containment,
used only to state claims about paths "inside"/"outside" the working
directory): a path lies strictly inside `root` iff it extends `root`
past a path separator; the path equal to `root` is not strictly inside,
nor is a sibling whose name merely extends `root` as a string. -/
def specStrictlyInside (root p : String) : Bool :=
  beginsWith p.data (root.data ++ ['/'])

/-- The names of the keyword arguments supplied to a Python call site
(the `**kw` dictionary's keys; their values play no role in the claims
about the command dispatch layer). -/
abbrev Kwargs := List String

/-- A value bound in a `cmd_table`: a Python callable invoked as
`cmd(workspace, **kw)`.  The call is modelled by its observable outcome:
either an exception, or the list of primitive actions the callable
performed.  The `workspace` positional argument is always supplied by the
call sites in the source and binds successfully for every callable used
here, so it is elided. -/
abbrev PyAction := Kwargs → Except PyErr (List String)

/-- `dummy_action` (core.py lines 7–8): `def dummy_action(workspace):
return`.  A Python function whose only parameter is `workspace` raises
`TypeError` when called with any keyword argument, and otherwise does
nothing and returns `None`. -/
def dummy_action : PyAction := fun kw =>
  if kw.isEmpty then Except.ok [] else Except.error PyErr.typeError

/-- A `cmd_table` dictionary: keys are phase names, values are either a
callable or a falsy value such as `None` (modelled by `none`). -/
abbrev CmdTable := List (String × Option PyAction)

/-- Python `dict.get(name)` on a `cmd_table`: `none` when the key is
missing. -/
def tableGet (t : CmdTable) (name : String) : Option (Option PyAction) :=
  t.lookup name

/-- `CmdWorkspace.get_cmd` (lines 96–101): `cmd = self.cmd_table.get(name);
if not cmd: return dummy_action; return cmd`.  A missing key yields `None`
and a stored `None` is falsy, so both fall through to `dummy_action`
(after an informational log message); function objects are truthy and are
returned as-is. -/
def get_cmd (t : CmdTable) (name : String) : PyAction :=
  match tableGet t name with
  | some (some f) => f
  | _ => dummy_action

/-- The state of a `CmdWorkspace` (lines 69–119).  The `cmd_table`
dictionary the instance holds is passed alongside the state to the
operations (it contains functions, which have no decidable equality). -/
structure CmdWorkspace where
  working_dir : String
  files : List String
  marker : String
deriving DecidableEq

/-- `CmdWorkspace.check_marker` (lines 103–106):
`isdir(join(self.working_dir, self.marker))`, with the filesystem
modelled by the `isdir` oracle. -/
def check_marker (isdir : String → Bool) (ws : CmdWorkspace) : Bool :=
  isdir (pjoin ws.working_dir ws.marker)

/-- `CmdWorkspace.initialize` (lines 108–112): return without acting when
the marker directory exists, else invoke `get_cmd('init')` on the
workspace.  The result is the exception raised or the list of actions
performed by the invoked callable (none when the marker was found). -/
def doInit (isdir : String → Bool) (t : CmdTable) (ws : CmdWorkspace)
    (kw : Kwargs) : Except PyErr (List String) :=
  if check_marker isdir ws then Except.ok []
  else get_cmd t "init" kw

/-- `CmdWorkspace.save` (lines 114–119):
`return self.get_cmd('save')(self, **kw)`. -/
def CmdWorkspace.save (t : CmdTable) (_ws : CmdWorkspace) (kw : Kwargs) :
    Except PyErr (List String) :=
  get_cmd t "save" kw

/-- `CmdWorkspace.__init__` (lines 74–94): `assert marker is not None`
fires before anything else happens; then the base constructor runs
(normalized `working_dir`, empty file set), the `cmd_table` is stored,
the marker is stored, and `self.initialize()` is called with no keyword
arguments.  The result pairs the constructed state with the list of
actions the `init` phase performed. -/
def CmdWorkspace.make (isdir : String → Bool) (cwd working_dir : String)
    (marker : Option String) (t : CmdTable) :
    Except PyErr (CmdWorkspace × List String) :=
  match marker with
  | none => Except.error PyErr.configAssertion
  | some m =>
    let base := mkBaseWorkspace cwd working_dir
    let ws : CmdWorkspace :=
      { working_dir := base.working_dir, files := base.files, marker := m }
    match doInit isdir t ws [] with
    | Except.error e => Except.error e
    | Except.ok tr => Except.ok (ws, tr)

/-- A recording stub for a dispatch table's `init` entry: it accepts any
keyword arguments and reports one `"init"` action per call, so the number
of `"init"` entries in a result trace counts its invocations. -/
def countingInit : PyAction := fun _ => Except.ok ["init"]

/-- The five primitive operations of `BaseDvcsCmd` (core.py lines
146–179), as trace events: `clone`, `init_new`, `add(path)`,
`commit(message)`, `push`. -/
inductive DvcsEvent where
  | clone
  | init_new
  | add (path : String)
  | commit (message : String)
  | push
deriving DecidableEq

/-- Python truthiness of the `remote` attribute (`None` or a string):
`None` and the empty string are falsy. -/
def pyTruthy : Option String → Bool
  | none => false
  | some s => !s.data.isEmpty

/-- `BaseDvcsCmd.init` (lines 154–158): `if self.remote: self.clone(...)
else: self.init_new(...)`, as the trace of primitive calls made. -/
def dvcsInit (remote : Option String) : List DvcsEvent :=
  if pyTruthy remote then [DvcsEvent.clone] else [DvcsEvent.init_new]

/-- `BaseDvcsCmd.save` (lines 160–164): add every tracked subpath in the
order `get_tracked_subpaths` yields, then commit with the message, then
push — as the trace of primitive calls made. -/
def dvcsSave (ws : BaseWorkspace) (message : String) : List DvcsEvent :=
  (get_tracked_subpaths ws).foldl (fun acc path => acc ++ [DvcsEvent.add path]) []
    ++ [DvcsEvent.commit message, DvcsEvent.push]

/-- `BaseDvcsCmd.save` with the `message` keyword's presence made
explicit: `def save(self, workspace, message='', **kw)` binds `message`
to `''` when the keyword is not supplied. -/
def dvcsSaveKw (ws : BaseWorkspace) (message : Option String) : List DvcsEvent :=
  dvcsSave ws (message.getD "")

/-- Occurrence count of an element in a list. -/
def countOcc {α : Type} [DecidableEq α] (x : α) : List α → Nat
  | [] => 0
  | y :: ys => (if y = x then 1 else 0) + countOcc x ys

theorem countOcc_append {α : Type} [DecidableEq α] (x : α) :
    ∀ l₁ l₂ : List α, countOcc x (l₁ ++ l₂) = countOcc x l₁ + countOcc x l₂
  | [], _ => by simp [countOcc]
  | y :: ys, l₂ => by
    simp [countOcc, countOcc_append x ys l₂, Nat.add_assoc]

theorem countOcc_map_inj {α β : Type} [DecidableEq α] [DecidableEq β]
    {f : α → β} (hf : Function.Injective f) (x : α) :
    ∀ l : List α, countOcc (f x) (l.map f) = countOcc x l
  | [] => rfl
  | y :: ys => by
    by_cases h : y = x
    · simp [countOcc, h, countOcc_map_inj hf x ys]
    · have : ¬ f y = f x := fun hc => h (hf hc)
      simp [countOcc, h, this, countOcc_map_inj hf x ys]

theorem countOcc_map_ne {α β : Type} [DecidableEq α] [DecidableEq β]
    {f : α → β} {y : β} (hy : ∀ a, f a ≠ y) :
    ∀ l : List α, countOcc y (l.map f) = 0
  | [] => rfl
  | a :: l => by simp [countOcc, hy a, countOcc_map_ne hy l]

theorem countOcc_perm {α : Type} [DecidableEq α] {l₁ l₂ : List α}
    (h : l₁.Perm l₂) (x : α) : countOcc x l₁ = countOcc x l₂ := by
  induction h with
  | nil => rfl
  | cons a _ ih => simp [countOcc, ih]
  | swap a b l => simp [countOcc, Nat.add_left_comm, Nat.add_assoc]
  | trans _ _ ih₁ ih₂ => exact ih₁.trans ih₂

theorem countOcc_eq_zero {α : Type} [DecidableEq α] {x : α} :
    ∀ {l : List α}, x ∉ l → countOcc x l = 0
  | [], _ => rfl
  | y :: ys, h => by
    have h₁ : ¬ y = x := fun hc => h (hc ▸ List.mem_cons_self y ys)
    have h₂ : x ∉ ys := fun hc => h (List.mem_cons_of_mem y hc)
    simp [countOcc, h₁, countOcc_eq_zero h₂]

theorem countOcc_nodup {α : Type} [DecidableEq α] :
    ∀ {l : List α}, l.Nodup → ∀ x : α, countOcc x l = if x ∈ l then 1 else 0
  | [], _, x => by simp [countOcc]
  | y :: ys, hnd, x => by
    rcases List.nodup_cons.mp hnd with ⟨hy, hys⟩
    by_cases h : y = x
    · subst h
      simp [countOcc, countOcc_eq_zero hy]
    · have hxy : ¬ x = y := fun hc => h hc.symm
      simp [countOcc, h, countOcc_nodup hys x, List.mem_cons, hxy]

theorem beginsWith_nil (s : List Char) : beginsWith s [] = true := by
  cases s <;> rfl

theorem beginsWith_append : ∀ {s p q : List Char},
    beginsWith s (p ++ q) = true → beginsWith s p = true
  | s, [], _, _ => beginsWith_nil s
  | [], a :: _, _, h => by simp [beginsWith] at h
  | c :: cs, a :: as, q, h => by
    simp only [List.cons_append, beginsWith, Bool.and_eq_true] at h ⊢
    exact ⟨h.1, beginsWith_append h.2⟩

theorem beginsWith_trans : ∀ {s p q : List Char},
    beginsWith s p = true → beginsWith p q = true → beginsWith s q = true
  | s, _, [], _, _ => beginsWith_nil s
  | _, [], _ :: _, _, h₂ => by simp [beginsWith] at h₂
  | [], _ :: _, _ :: _, h₁, _ => by simp [beginsWith] at h₁
  | c :: cs, a :: as, b :: bs, h₁, h₂ => by
    simp only [beginsWith, Bool.and_eq_true, beq_iff_eq] at h₁ h₂ ⊢
    exact ⟨h₁.1.trans h₂.1, beginsWith_trans h₁.2 h₂.2⟩

theorem beginsWith_refl : ∀ l : List Char, beginsWith l l = true
  | [] => rfl
  | c :: cs => by simp [beginsWith, beginsWith_refl cs]

theorem beginsWith_append_self : ∀ a b : List Char, beginsWith (a ++ b) a = true
  | [], b => beginsWith_nil b
  | c :: cs, b => by simp [beginsWith, beginsWith_append_self cs b]

theorem beginsWith_append_right : ∀ {a p : List Char} (b : List Char),
    beginsWith a p = true → beginsWith (a ++ b) p = true
  | a, [], b, _ => beginsWith_nil (a ++ b)
  | [], _ :: _, _, h => by simp [beginsWith] at h
  | c :: cs, x :: xs, b, h => by
    simp only [List.cons_append, beginsWith, Bool.and_eq_true] at h ⊢
    exact ⟨h.1, beginsWith_append_right b h.2⟩

theorem mem_setAdd {xs : List String} {x y : String} :
    y ∈ setAdd xs x ↔ y ∈ xs ∨ y = x := by
  by_cases h : x ∈ xs
  · simp only [setAdd, if_pos h]
    exact ⟨Or.inl, fun hc => hc.elim id (fun he => he ▸ h)⟩
  · simp [setAdd, if_neg h, List.mem_append]

theorem setAdd_nodup {xs : List String} {x : String} (h : xs.Nodup) :
    (setAdd xs x).Nodup := by
  by_cases hx : x ∈ xs
  · simpa [setAdd, if_pos hx] using h
  · simp only [setAdd, if_neg hx]
    exact List.Nodup.append h (List.nodup_singleton x)
      (fun a ha hax => hx ((List.mem_singleton.mp hax) ▸ ha))

theorem setAdd_self_mem {xs : List String} {x : String} : x ∈ setAdd xs x :=
  mem_setAdd.mpr (Or.inr rfl)

theorem setAdd_idem {xs : List String} {x : String} (h : x ∈ xs) :
    setAdd xs x = xs := by simp [setAdd, if_pos h]

theorem foldl_append_map {α β : Type} (f : α → β) :
    ∀ (l : List α) (acc : List β),
      l.foldl (fun a x => a ++ [f x]) acc = acc ++ l.map f
  | [], acc => by simp
  | x :: l, acc => by
    simp [List.foldl_cons, foldl_append_map f l (acc ++ [f x])]

theorem subpaths_perm (ws : BaseWorkspace) :
    (get_tracked_subpaths ws).Perm ws.files :=
  List.perm_insertionSort strLe ws.files

theorem subpaths_sorted (ws : BaseWorkspace) :
    List.Sorted strLe (get_tracked_subpaths ws) :=
  List.sorted_insertionSort strLe ws.files

theorem add_file_ok {cwd : String} {ws : BaseWorkspace} {p : String}
    {ws' : BaseWorkspace} (h : add_file cwd ws p = (ws', none)) :
    ws'.working_dir = ws.working_dir
    ∧ ws'.files = setAdd ws.files (relnameOf cwd ws.working_dir p) := by
  by_cases hs : pyStartswith (resolveAbs cwd ws.working_dir p) ws.working_dir
  · simp only [add_file, if_pos hs, Prod.mk.injEq] at h
    rw [← h.1]
    exact ⟨rfl, rfl⟩
  · simp [add_file, if_neg hs] at h

theorem add_file_mem_noop {cwd : String} {ws : BaseWorkspace} {q : String}
    (hs : pyStartswith (resolveAbs cwd ws.working_dir q) ws.working_dir = true)
    (hmem : strDrop (resolveAbs cwd ws.working_dir q)
      (strLen ws.working_dir + 1) ∈ ws.files) :
    add_file cwd ws q = (ws, none) := by
  simp [add_file, hs, setAdd_idem hmem]

theorem addAll_ok {cwd : String} :
    ∀ {ps : List String} {ws ws' : BaseWorkspace},
      addAll cwd ws ps = (ws', none) →
      ws'.working_dir = ws.working_dir
      ∧ (∀ x, x ∈ ws'.files ↔
          x ∈ ws.files ∨ x ∈ ps.map (relnameOf cwd ws.working_dir))
      ∧ (ws.files.Nodup → ws'.files.Nodup)
  | [], ws, ws', h => by
    simp only [addAll, Prod.mk.injEq] at h
    rw [← h.1]
    exact ⟨rfl, fun x => by simp, id⟩
  | p :: rest, ws, ws', h => by
    rcases h0 : add_file cwd ws p with ⟨ws₀, e⟩
    cases e with
    | some err => simp [addAll, h0] at h
    | none =>
      simp only [addAll, h0] at h
      rcases add_file_ok h0 with ⟨hwd₀, hfl₀⟩
      rcases addAll_ok h with ⟨hwd, hmem, hnd⟩
      refine ⟨hwd.trans hwd₀, fun x => ?_, fun hn => hnd (by
        rw [hfl₀]; exact setAdd_nodup hn)⟩
      rw [hmem x, hfl₀, mem_setAdd, hwd₀]
      simp [List.mem_cons, or_assoc, or_comm, or_left_comm]

theorem countOcc_commit_dvcsSave (ws : BaseWorkspace) (m m' : String) :
    countOcc (DvcsEvent.commit m') (dvcsSave ws m) = if m' = m then 1 else 0 := by
  have hmap : countOcc (DvcsEvent.commit m')
      ((get_tracked_subpaths ws).map DvcsEvent.add) = 0 :=
    countOcc_map_ne (fun a => by simp) _
  simp only [dvcsSave, foldl_append_map, List.nil_append, countOcc_append, hmap]
  by_cases h : m' = m
  · subst h
    simp [countOcc]
  · have h' : ¬ m = m' := fun hc => h hc.symm
    simp [countOcc, h, h']

/-- C1 (counterexample): the claim that `add_file(p)` raises the
out-of-bounds error and leaves `tracked_paths` unchanged for every path
whose normalized absolute form lies outside `working_dir` — including
siblings whose name merely extends the root as a string prefix, and the
path equal to the root itself — is false on the code: with
`working_dir = "/w"`, the sibling path `"/wx/f"` and the root `"/w"`
itself lie outside the root, yet `add_file` raises nothing and the
tracked set grows, because line 44 of core.py only checks
`filename.startswith(self.working_dir)`. -/
theorem add_file_prefix_escape_cex :
    (specStrictlyInside "/w" "/wx/f" = false
      ∧ add_file "/" ⟨"/w", []⟩ "/wx/f" = (⟨"/w", ["/f"]⟩, none))
    ∧ (specStrictlyInside "/w" "/w" = false
      ∧ add_file "/" ⟨"/w", []⟩ "/w" = (⟨"/w", [""]⟩, none)) :=
  ⟨⟨by decide, by decide⟩, ⟨by decide, by decide⟩⟩

/-- C1 (amended): `add_file(p)` raises the out-of-bounds `ValueError`
and leaves the workspace state — in particular the tracked set —
unchanged exactly when `p`'s resolved absolute form does not have
`working_dir` as a string prefix (which covers `../`-style traversal
that escapes the root); every path passing the `startswith` check is
instead added (its suffix past the root is tracked).  In particular,
for an absolute `working_dir`, the path equal to the root itself and
every string extension of the root — including sibling directories
whose name merely extends the root as a string prefix — are accepted,
never rejected. -/
theorem add_file_out_of_bounds (cwd : String) (ws : BaseWorkspace)
    (p q : String) (habs : isabs ws.working_dir = true) :
    add_file cwd ws p =
      (if pyStartswith (resolveAbs cwd ws.working_dir p) ws.working_dir
       then ({ ws with
          files := setAdd ws.files (relnameOf cwd ws.working_dir p) }, none)
       else (ws, some PyErr.outOfBoundsPath))
    ∧ add_file cwd ws ws.working_dir
      = ({ ws with
          files := setAdd ws.files
            (relnameOf cwd ws.working_dir ws.working_dir) }, none)
    ∧ add_file cwd ws (ws.working_dir ++ q)
      = ({ ws with
          files := setAdd ws.files
            (relnameOf cwd ws.working_dir (ws.working_dir ++ q)) }, none) := by
  refine ⟨?_, ?_, ?_⟩
  · by_cases h : pyStartswith (resolveAbs cwd ws.working_dir p) ws.working_dir <;>
      simp [add_file, h, relnameOf]
  · have hres : resolveAbs cwd ws.working_dir ws.working_dir = ws.working_dir := by
      simp [resolveAbs, habs]
    have hs : pyStartswith (resolveAbs cwd ws.working_dir ws.working_dir)
        ws.working_dir = true := by
      rw [hres]
      exact beginsWith_refl ws.working_dir.data
    simp [add_file, hs, relnameOf]
  · have habs2 : isabs (ws.working_dir ++ q) = true := by
      show beginsWith (ws.working_dir ++ q).data ['/'] = true
      rw [String.data_append]
      exact beginsWith_append_right q.data habs
    have hres : resolveAbs cwd ws.working_dir (ws.working_dir ++ q)
        = ws.working_dir ++ q := by
      simp [resolveAbs, habs2]
    have hs : pyStartswith (resolveAbs cwd ws.working_dir (ws.working_dir ++ q))
        ws.working_dir = true := by
      rw [hres]
      show beginsWith (ws.working_dir ++ q).data ws.working_dir.data = true
      rw [String.data_append]
      exact beginsWith_append_self ws.working_dir.data q.data
    simp [add_file, hs, relnameOf]

/-- C1 witness: `working_dir = "/w"` is absolute; the traversal path
`"../x"` resolves to `"/x"`, fails the prefix check and is rejected with
the state unchanged, while the root `"/w"` itself and the sibling
`"/w" ++ "x/f" = "/wx/f"` are accepted and tracked. -/
theorem add_file_out_of_bounds_witness :
    isabs "/w" = true
    ∧ (add_file "/" ⟨"/w", []⟩ "../x" =
        (if pyStartswith (resolveAbs "/" "/w" "../x") "/w"
         then (⟨"/w", setAdd [] (relnameOf "/" "/w" "../x")⟩, none)
         else (⟨"/w", []⟩, some PyErr.outOfBoundsPath))
      ∧ add_file "/" ⟨"/w", []⟩ "/w"
          = (⟨"/w", setAdd [] (relnameOf "/" "/w" "/w")⟩, none)
      ∧ add_file "/" ⟨"/w", []⟩ ("/w" ++ "x/f")
          = (⟨"/w", setAdd [] (relnameOf "/" "/w" ("/w" ++ "x/f"))⟩, none)) :=
  ⟨by decide, add_file_out_of_bounds "/" ⟨"/w", []⟩ "../x" "x/f" (by decide)⟩

/-- C2 (confirmed): one `BaseDvcsCmd.save` call produces exactly the
trace `add` per tracked path in lexicographic order, then one `commit`
with the given message, then one `push`, and nothing else: the trace is
literally the `add`-image of `get_tracked_subpaths` (which is sorted)
followed by `[commit m, push]`; each tracked path is added exactly once,
the commit with message `m` occurs exactly once (and no commit with any
other message occurs), and `push` occurs exactly once. -/
theorem dvcs_save_protocol (ws : BaseWorkspace) (m : String)
    (hnd : ws.files.Nodup) :
    dvcsSave ws m = (get_tracked_subpaths ws).map DvcsEvent.add
        ++ [DvcsEvent.commit m, DvcsEvent.push]
    ∧ List.Sorted strLe (get_tracked_subpaths ws)
    ∧ (∀ p, countOcc (DvcsEvent.add p) (dvcsSave ws m)
        = if p ∈ ws.files then 1 else 0)
    ∧ (∀ m', countOcc (DvcsEvent.commit m') (dvcsSave ws m)
        = if m' = m then 1 else 0)
    ∧ countOcc DvcsEvent.push (dvcsSave ws m) = 1 := by
  have htr : dvcsSave ws m = (get_tracked_subpaths ws).map DvcsEvent.add
      ++ [DvcsEvent.commit m, DvcsEvent.push] := by
    simp [dvcsSave, foldl_append_map]
  refine ⟨htr, subpaths_sorted ws, fun p => ?_,
    fun m' => countOcc_commit_dvcsSave ws m m', ?_⟩
  · have hinj : Function.Injective DvcsEvent.add := fun a b hab => by
      cases hab; rfl
    have hperm := subpaths_perm ws
    have hndsub : (get_tracked_subpaths ws).Nodup := hperm.nodup_iff.mpr hnd
    have htail : countOcc (DvcsEvent.add p)
        [DvcsEvent.commit m, DvcsEvent.push] = 0 := by simp [countOcc]
    rw [htr, countOcc_append, countOcc_map_inj hinj,
      countOcc_nodup hndsub, htail]
    simp [hperm.mem_iff]
  · have h0 : countOcc DvcsEvent.push
        ((get_tracked_subpaths ws).map DvcsEvent.add) = 0 :=
      countOcc_map_ne (fun a => by simp) _
    rw [htr, countOcc_append, h0]
    simp [countOcc]

/-- C2 witness: the protocol trace on a workspace tracking three files,
saved with message `"m"`. -/
theorem dvcs_save_protocol_witness :
    (["b", "a", "c"] : List String).Nodup
    ∧ (dvcsSave ⟨"/w", ["b", "a", "c"]⟩ "m"
          = (get_tracked_subpaths ⟨"/w", ["b", "a", "c"]⟩).map DvcsEvent.add
            ++ [DvcsEvent.commit "m", DvcsEvent.push]
      ∧ List.Sorted strLe (get_tracked_subpaths ⟨"/w", ["b", "a", "c"]⟩)
      ∧ (∀ p, countOcc (DvcsEvent.add p) (dvcsSave ⟨"/w", ["b", "a", "c"]⟩ "m")
          = if p ∈ (["b", "a", "c"] : List String) then 1 else 0)
      ∧ (∀ m', countOcc (DvcsEvent.commit m') (dvcsSave ⟨"/w", ["b", "a", "c"]⟩ "m")
          = if m' = "m" then 1 else 0)
      ∧ countOcc DvcsEvent.push (dvcsSave ⟨"/w", ["b", "a", "c"]⟩ "m") = 1) :=
  ⟨by decide, dvcs_save_protocol ⟨"/w", ["b", "a", "c"]⟩ "m" (by decide)⟩

/-- C3 (code bug): with a dispatch table that has no `save` entry,
`CmdWorkspace.save` falls back to `dummy_action`; but `dummy_action`
accepts only the `workspace` positional argument, so passing any keyword
option — such as a commit message — raises `TypeError` instead of being
the safe no-op the spec promises.  Only the call with no keyword options
is a no-op returning `None`. -/
theorem cmd_save_missing_entry_behavior :
    CmdWorkspace.save [] ⟨"/w", [], ".git"⟩ ["message"]
      = Except.error PyErr.typeError
    ∧ CmdWorkspace.save [] ⟨"/w", [], ".git"⟩ [] = Except.ok [] :=
  ⟨rfl, rfl⟩

/-- C4 (confirmed): constructing a `CmdWorkspace` with a counting `init`
stub in the dispatch table performs no `init` call when
`join(working_dir, marker)` exists as a directory, and performs exactly
one `init` call when it does not. -/
theorem cmd_make_marker_gates_init (isdir : String → Bool)
    (cwd wd m : String) :
    CmdWorkspace.make isdir cwd wd (some m) [("init", some countingInit)]
      = Except.ok (⟨abspath cwd (normpath wd), [], m⟩,
          if isdir (pjoin (abspath cwd (normpath wd)) m) then []
          else ["init"]) := by
  by_cases h : isdir (pjoin (abspath cwd (normpath wd)) m)
  · simp [CmdWorkspace.make, mkBaseWorkspace, doInit, check_marker, h]
  · simp [CmdWorkspace.make, mkBaseWorkspace, doInit, check_marker, h,
      get_cmd, tableGet, List.lookup, countingInit]

/-- C5 (confirmed): for a relative path whose resolved absolute form
lies strictly inside `working_dir`, `add_file` succeeds, and the
workspace-relative form appears exactly once among the tracked subpaths
— also after adding the same path a second time, and after adding its
equivalent absolute form: both repeat calls leave the state unchanged. -/
theorem add_file_inside_idempotent (cwd : String) (ws : BaseWorkspace)
    (p : String)
    (hrel : isabs p = false)
    (habs : isabs ws.working_dir = true)
    (hin : specStrictlyInside ws.working_dir
      (resolveAbs cwd ws.working_dir p) = true)
    (hnd : ws.files.Nodup) :
    ∃ ws', add_file cwd ws p = (ws', none)
      ∧ add_file cwd ws' p = (ws', none)
      ∧ add_file cwd ws' (resolveAbs cwd ws.working_dir p) = (ws', none)
      ∧ countOcc (relnameOf cwd ws.working_dir p)
          (get_tracked_subpaths ws') = 1 := by
  have hstart : pyStartswith (resolveAbs cwd ws.working_dir p)
      ws.working_dir = true := beginsWith_append hin
  have habsf : isabs (resolveAbs cwd ws.working_dir p) = true :=
    beginsWith_trans hstart habs
  have hid : ∀ q : String, isabs q = true → resolveAbs cwd ws.working_dir q = q :=
    fun q hq => by simp [resolveAbs, hq]
  have hfix := hid _ habsf
  have hself : relnameOf cwd ws.working_dir p
      ∈ setAdd ws.files (relnameOf cwd ws.working_dir p) := setAdd_self_mem
  refine ⟨{ ws with files := setAdd ws.files (relnameOf cwd ws.working_dir p) },
    ?_, ?_, ?_, ?_⟩
  · simp [add_file, hstart, relnameOf]
  · exact add_file_mem_noop hstart hself
  · have hs3 : pyStartswith (resolveAbs cwd ws.working_dir
        (resolveAbs cwd ws.working_dir p)) ws.working_dir = true := by
      rw [hfix]; exact hstart
    have hm3 : strDrop (resolveAbs cwd ws.working_dir
          (resolveAbs cwd ws.working_dir p)) (strLen ws.working_dir + 1)
        ∈ setAdd ws.files (relnameOf cwd ws.working_dir p) := by
      rw [hfix]; exact hself
    exact add_file_mem_noop hs3 hm3
  · have hnd' : (setAdd ws.files (relnameOf cwd ws.working_dir p)).Nodup :=
      setAdd_nodup hnd
    have hperm := subpaths_perm
      { ws with files := setAdd ws.files (relnameOf cwd ws.working_dir p) }
    rw [countOcc_perm hperm, countOcc_nodup hnd', if_pos hself]

/-- C5 witness: adding the relative path `"a"` inside `working_dir =
"/w"`, twice, and once more as the absolute `"/w/a"`. -/
theorem add_file_inside_idempotent_witness :
    isabs "a" = false
    ∧ isabs "/w" = true
    ∧ specStrictlyInside "/w" (resolveAbs "/" "/w" "a") = true
    ∧ ([] : List String).Nodup
    ∧ (∃ ws', add_file "/" ⟨"/w", []⟩ "a" = (ws', none)
        ∧ add_file "/" ws' "a" = (ws', none)
        ∧ add_file "/" ws' (resolveAbs "/" "/w" "a") = (ws', none)
        ∧ countOcc (relnameOf "/" "/w" "a") (get_tracked_subpaths ws') = 1) :=
  ⟨by decide, by decide, by decide, by decide,
    add_file_inside_idempotent "/" ⟨"/w", []⟩ "a"
      (by decide) (by decide) (by decide) (by decide)⟩

/-- C6 (confirmed): two successful sequences of `add_file` calls that
are permutations of one another yield the same `get_tracked_subpaths`
result, and that result is sorted in lexicographic order. -/
theorem subpaths_insertion_order_irrelevant (cwd : String)
    (ws : BaseWorkspace) (ps₁ ps₂ : List String) (ws₁ ws₂ : BaseWorkspace)
    (hnd : ws.files.Nodup) (hperm : ps₁.Perm ps₂)
    (h₁ : addAll cwd ws ps₁ = (ws₁, none))
    (h₂ : addAll cwd ws ps₂ = (ws₂, none)) :
    get_tracked_subpaths ws₁ = get_tracked_subpaths ws₂
    ∧ List.Sorted strLe (get_tracked_subpaths ws₁) := by
  rcases addAll_ok h₁ with ⟨_, hm₁, hn₁⟩
  rcases addAll_ok h₂ with ⟨_, hm₂, hn₂⟩
  have hmem : ∀ x, x ∈ ws₁.files ↔ x ∈ ws₂.files := fun x => by
    rw [hm₁ x, hm₂ x, (hperm.map (relnameOf cwd ws.working_dir)).mem_iff]
  have hp : ws₁.files.Perm ws₂.files :=
    (List.perm_ext_iff_of_nodup (hn₁ hnd) (hn₂ hnd)).mpr hmem
  have hps : (get_tracked_subpaths ws₁).Perm (get_tracked_subpaths ws₂) :=
    (subpaths_perm ws₁).trans (hp.trans (subpaths_perm ws₂).symm)
  exact ⟨List.eq_of_perm_of_sorted hps (subpaths_sorted ws₁)
      (subpaths_sorted ws₂), subpaths_sorted ws₁⟩

/-- C6 witness: adding `["a", "b"]` and `["b", "a"]` to a fresh
workspace rooted at `"/w"`. -/
theorem subpaths_insertion_order_irrelevant_witness :
    ([] : List String).Nodup
    ∧ (["a", "b"] : List String).Perm ["b", "a"]
    ∧ addAll "/" ⟨"/w", []⟩ ["a", "b"] = (⟨"/w", ["a", "b"]⟩, none)
    ∧ addAll "/" ⟨"/w", []⟩ ["b", "a"] = (⟨"/w", ["b", "a"]⟩, none)
    ∧ (get_tracked_subpaths ⟨"/w", ["a", "b"]⟩
        = get_tracked_subpaths ⟨"/w", ["b", "a"]⟩
      ∧ List.Sorted strLe (get_tracked_subpaths ⟨"/w", ["a", "b"]⟩)) :=
  ⟨by decide, by decide, by decide, by decide,
    subpaths_insertion_order_irrelevant "/" ⟨"/w", []⟩ ["a", "b"] ["b", "a"]
      ⟨"/w", ["a", "b"]⟩ ⟨"/w", ["b", "a"]⟩
      (by decide) (by decide) (by decide) (by decide)⟩

/-- C7 (confirmed): constructing a `CmdWorkspace` without a marker fails
at once with the configuration assertion, for every filesystem, working
directory and dispatch table — in particular before any `init` action is
performed (the result does not depend on the table and carries no
action). -/
theorem cmd_make_requires_marker (isdir : String → Bool) (cwd wd : String)
    (t : CmdTable) :
    CmdWorkspace.make isdir cwd wd none t
      = Except.error PyErr.configAssertion := rfl

/-- C8 (counterexample): the claim that `BaseDvcsCmd.init` calls `clone`
exactly when a remote is configured — where, per the spec, `None` means
"no remote configured", so any non-`None` value is configured — is false
on the code: with `remote = ""` (configured but falsy in Python), `init`
calls `init_new`, not `clone`. -/
theorem dvcs_init_configured_empty_remote_cex :
    (some "" : Option String) ≠ none
    ∧ dvcsInit (some "") = [DvcsEvent.init_new]
    ∧ DvcsEvent.clone ∉ dvcsInit (some "") :=
  ⟨by decide, by decide, by decide⟩

/-- C8 (amended): `BaseDvcsCmd.init` calls `clone` exactly when the
remote is set to a non-empty string (Python-truthy), and calls
`init_new` otherwise (remote `None` or the empty string); exactly one of
the two primitives is invoked on every call, never both. -/
theorem dvcs_init_clone_iff_truthy (remote : Option String) :
    (dvcsInit remote = [DvcsEvent.clone] ↔ pyTruthy remote = true)
    ∧ (dvcsInit remote = [DvcsEvent.init_new] ↔ pyTruthy remote = false)
    ∧ ¬ (DvcsEvent.clone ∈ dvcsInit remote
        ∧ DvcsEvent.init_new ∈ dvcsInit remote) := by
  by_cases h : pyTruthy remote <;> simp [dvcsInit, h]

/-- C9 (confirmed): a dispatch-table entry bound to a falsy value (a
stored `None`) makes `get_cmd` return the shared `dummy_action`, exactly
as for a missing entry — the bound value is never returned, hence never
invoked. -/
theorem get_cmd_falsy_entry_is_missing (t : CmdTable) (name : String)
    (h : tableGet t name = some none) :
    get_cmd t name = dummy_action ∧ get_cmd [] name = dummy_action := by
  constructor
  · simp [get_cmd, h]
  · rfl

/-- C9 witness: a table binding `save` to `None`. -/
theorem get_cmd_falsy_entry_is_missing_witness :
    tableGet [("save", (none : Option PyAction))] "save" = some none
    ∧ (get_cmd [("save", (none : Option PyAction))] "save" = dummy_action
      ∧ get_cmd [] "save" = dummy_action) :=
  ⟨rfl, get_cmd_falsy_entry_is_missing _ "save" rfl⟩

/-- C10 (confirmed): calling `BaseDvcsCmd.save` without a `message`
keyword commits exactly once with the empty string as the message, and
never with any other message. -/
theorem dvcs_save_default_message (ws : BaseWorkspace) (m' : String) :
    countOcc (DvcsEvent.commit m') (dvcsSaveKw ws none)
      = if m' = "" then 1 else 0 :=
  countOcc_commit_dvcsSave ws "" m'

end Wfctrl
